import Mathlib

/-!
Verification of the core linter of `cli-config-linter` (package `linter`,
plus the fatal-determination logic of its two callers).

The Go sources are embedded shallowly:
  * the `linter` package (`LintBytes`, `parseConfig`, `parseKeyValue`,
    `validateMetadata`, `validateSettings`, `validateFeatures`,
    `isPositiveInt`, `isBool`, `contains`) is translated function by
    function below;
  * lines are `List Char`; Go `map[string]fieldInfo` becomes an
    association list where a new binding is prepended and `lookupField`
    returns the most recent binding, so last-write-wins semantics and
    emptiness coincide with the Go map's;
  * `bufio.Scanner` with `ScanLines` is modelled by `splitRaw` (split on
    a newline byte, no empty token after a trailing newline) together
    with `dropCR` (a final carriage return is dropped from each line)
    and the default token-size limit `MaxScanTokenSize = 65536`: the
    scanner reports `ErrTooLong` as soon as it has buffered 65536 bytes
    of a single line without finding its newline, so any maximal
    newline-free run of length at least 65536 makes the scan fail and
    `parseConfig` return that error;
  * Go `int` line counters are `Nat` (the program only increments them
    from zero);
  * only ASCII whitespace is modelled in `trimSpaceL` and only ASCII
    letters in `toLowerL`; the `%q` formatting of `fmt.Sprintf` is
    modelled by `goQuote`, which wraps the value in double quotes
    (the escaping `%q` performs on exotic characters inside the value is
    not modelled; no theorem below depends on it).
-/

/-- Severity of an issue; Go `SeverityError` is the string "error" and
`SeverityWarning` the string "warn". -/
inductive Severity where
  | error
  | warn
deriving DecidableEq, BEq

/-- One diagnostic issue, mirroring Go `linter.Issue`; an absent
`SuggestedFix` is the empty string (Go zero value, `omitempty`). -/
structure Issue where
  line : Nat
  severity : Severity
  message : String
  suggestedFix : String
deriving DecidableEq

/-- Go `fieldInfo`: the literal text of a scalar value and the line where
it was last assigned. -/
structure fieldInfo where
  value : String
  line : Nat
deriving DecidableEq

/-- Go `featureEntry`: one element of the features sequence.  The Go
`map[string]fieldInfo` is an association list with the newest binding in
front. -/
structure featureEntry where
  fields : List (String × fieldInfo)
  line : Nat
deriving DecidableEq

/-- Go `parsedConfig`. -/
structure parsedConfig where
  metadata : List (String × fieldInfo)
  metadataLine : Nat
  settings : List (String × fieldInfo)
  settingsLine : Nat
  features : List featureEntry
  featuresLine : Nat
deriving DecidableEq

/-- Go map read `m[k]` (comma-ok): the most recent binding for `k`. -/
def lookupField : List (String × fieldInfo) → String → Option fieldInfo
  | [], _ => none
  | (k2, v) :: rest, k => if k2 = k then some v else lookupField rest k

/-- Go map write `m[k] = fi`: prepend, shadowing any older binding. -/
def storeField (m : List (String × fieldInfo)) (k : String) (fi : fieldInfo) :
    List (String × fieldInfo) :=
  (k, fi) :: m

/-- ASCII whitespace, the relevant fragment of Go `unicode.IsSpace`
(non-ASCII Unicode spaces are not modelled). -/
def isSpaceChar (c : Char) : Bool :=
  c == ' ' || c == '\t' || c == '\n' || c == '\x0b' || c == '\x0c' || c == '\r'

/-- Go `strings.TrimSpace` on a line. -/
def trimSpaceL (l : List Char) : List Char :=
  ((l.dropWhile isSpaceChar).reverse.dropWhile isSpaceChar).reverse

/-- Go `strings.HasPrefix`. -/
def startsWithL : List Char → List Char → Bool
  | _, [] => true
  | [], _ :: _ => false
  | c :: s, p :: ps => (c == p) && startsWithL s ps

/-- Go `strings.TrimPrefix`. -/
def trimPrefL (s pre : List Char) : List Char :=
  if startsWithL s pre then s.drop pre.length else s

/-- Go `strings.HasSuffix`. -/
def endsWithL (s suf : List Char) : Bool :=
  startsWithL s.reverse suf.reverse

/-- Go `strings.TrimSuffix` (removes at most one copy of the suffix). -/
def trimSufL (s suf : List Char) : List Char :=
  if endsWithL s suf then s.take (s.length - suf.length) else s

/-- A character of the Go cutset `"'` of `strings.Trim` in
`parseKeyValue`. -/
def isQuoteChar (c : Char) : Bool :=
  c == '"' || c == '\''

/-- Go `strings.Trim(s, cutset)` for the quote cutset: strip quote
characters from both ends. -/
def trimQuotesL (l : List Char) : List Char :=
  ((l.dropWhile isQuoteChar).reverse.dropWhile isQuoteChar).reverse

/-- Go `strings.Index(line, ":")`: split at the first colon, the colon
itself belonging to neither part; `none` when there is no colon. -/
def splitAtColon : List Char → Option (List Char × List Char)
  | [] => none
  | c :: rest =>
    if c = ':' then some ([], rest)
    else
      match splitAtColon rest with
      | none => none
      | some (a, b) => some (c :: a, b)

/-- ASCII decimal digit test. -/
def isDigitChar (c : Char) : Bool :=
  ('0' ≤ c) && (c ≤ '9')

/-- Value of a list of decimal digits. -/
def digitsToNat (l : List Char) : Nat :=
  l.foldl (fun acc c => acc * 10 + (c.toNat - '0'.toNat)) 0

/-- Go `strconv.Atoi`: an optional sign followed by at least one decimal
digit, rejected (`ErrRange`) when the value does not fit a 64-bit `int`. -/
def atoi (s : String) : Option Int :=
  match s.data with
  | [] => none
  | c :: rest =>
    let digits := if c = '-' ∨ c = '+' then rest else c :: rest
    if digits = [] then none
    else if digits.all isDigitChar then
      let n : Int := Int.ofNat (digitsToNat digits)
      let v : Int := if c = '-' then -n else n
      if -(2 ^ 63) ≤ v ∧ v ≤ 2 ^ 63 - 1 then some v else none
    else none

/-- Go `linter.isPositiveInt`: true unless the value is empty, fails
`strconv.Atoi`, or is the literal string "0". -/
def isPositiveInt (value : String) : Bool :=
  if value = "" then false
  else if (atoi value).isNone ∨ value = "0" then false
  else true

/-- ASCII lower-casing of one character (Go `strings.ToLower`, ASCII
fragment). -/
def toLowerChar (c : Char) : Char :=
  if 'A' ≤ c ∧ c ≤ 'Z' then Char.ofNat (c.toNat + 32) else c

/-- Go `strings.ToLower` on a line. -/
def toLowerL (l : List Char) : List Char :=
  l.map toLowerChar

/-- Go `linter.isBool`: case-insensitive `true` or `false` after
trimming. -/
def isBool (value : String) : Bool :=
  let v := String.mk (toLowerL (trimSpaceL value.data))
  v == "true" || v == "false"

/-- Go `linter.contains` (renamed: `contains` is taken in Lean's core). -/
def containsStr : List String → String → Bool
  | [], _ => false
  | v :: rest, value => if v = value then true else containsStr rest value

/-- Go `allowedEnvironments`. -/
def allowedEnvironments : List String :=
  ["dev", "staging", "prod"]

/-- Go `defaultTimeout`. -/
def defaultTimeout : Nat := 30

/-- Go `fmt.Sprintf("%q", s)`; the escaping `%q` applies to special
characters inside `s` is not modelled. -/
def goQuote (s : String) : String :=
  "\"" ++ s ++ "\""

/-- Go `linter.parseKeyValue`: key and value around the first colon, both
trimmed and quote-stripped; a value that is exactly `{` or `[` is
blanked.  The returned Bool (`hasValue`) is false only when the line has
no colon. -/
def parseKeyValue (line : List Char) : String × String × Bool :=
  match splitAtColon line with
  | none => ("", "", false)
  | some (before, after) =>
    let key := String.mk (trimQuotesL (trimSpaceL before))
    let value := String.mk (trimQuotesL (trimSpaceL after))
    let value := if value = "\x7b" ∨ value = "[" then "" else value
    (key, value, true)

/-- State of the scanning loop of `parseConfig`: the Go local variables
`section` (renamed `sect`; `section` is a Lean keyword), `currentFeature`
(`cur`) and the config being built. -/
structure scanState where
  sect : String
  cur : featureEntry
  cfg : parsedConfig
deriving DecidableEq

/-- State at the top of `parseConfig`: empty maps, zero line anchors, the
zero-valued `currentFeature`. -/
def initScanState : scanState :=
  { sect := ""
    cur := { fields := [], line := 0 }
    cfg := { metadata := [], metadataLine := 0
             settings := [], settingsLine := 0
             features := [], featuresLine := 0 } }

/-- Go `cfg.Features = append(cfg.Features, currentFeature)` (the pending
entry is left in place; every caller immediately replaces or clears it). -/
def flushCur (st : scanState) : scanState :=
  { st with cfg := { st.cfg with features := st.cfg.features ++ [st.cur] } }

/-- Go `currentFeature = featureEntry{Fields: make(...), Line: lineNo}`. -/
def startCur (n : Nat) (st : scanState) : scanState :=
  { st with cur := { fields := [], line := n } }

/-- The two identical feature-marker blocks of `parseConfig` (leading `-`
and leading `{`): flush a non-empty pending entry, anchor a fresh one at
the current line, strip the marker; `none` means the Go `continue` (the
remainder was empty). -/
def stepMarker (marker : Char) (n : Nat) (clean : List Char) (st : scanState) :
    Option (List Char) × scanState :=
  if startsWithL clean [marker] then
    let st1 := if st.cur.fields ≠ [] then flushCur st else st
    let st2 := startCur n st1
    let clean2 := trimSpaceL (trimPrefL clean [marker])
    if clean2 = [] then (none, st2) else (some clean2, st2)
  else (some clean, st)

/-- The key-value tail of the `parseConfig` loop body.  The Go source
first matches the three section keys in a `switch` guarded by
`section == ""` and then repeats the identical `switch` unconditionally;
the two reduce to the single unconditional test here.  The quoted
variants (`"metadata"` etc.) are kept even though `parseKeyValue` already
strips quotes from keys. -/
def stepKV (n : Nat) (clean : List Char) (st : scanState) : scanState :=
  match parseKeyValue clean with
  | (key, value, hasValue) =>
    if key = "" then st
    else if key = "metadata" ∨ key = "\"metadata\"" then
      { st with sect := "metadata", cfg := { st.cfg with metadataLine := n } }
    else if key = "settings" ∨ key = "\"settings\"" then
      { st with sect := "settings", cfg := { st.cfg with settingsLine := n } }
    else if key = "features" ∨ key = "\"features\"" then
      { st with sect := "features", cfg := { st.cfg with featuresLine := n } }
    else if st.sect = "metadata" then
      if hasValue then
        { st with cfg := { st.cfg with
            metadata := storeField st.cfg.metadata key { value := value, line := n } } }
      else st
    else if st.sect = "settings" then
      if hasValue then
        { st with cfg := { st.cfg with
            settings := storeField st.cfg.settings key { value := value, line := n } } }
      else st
    else if st.sect = "features" then
      if hasValue = false then st
      else
        let cur := if st.cur.fields = [] then { fields := [], line := n } else st.cur
        { st with cur := { fields := storeField cur.fields key { value := value, line := n }
                           line := cur.line } }
    else st

/-- One iteration of the `parseConfig` scanning loop on the line numbered
`n` (1-based). -/
def parseStep (n : Nat) (raw : List Char) (st : scanState) : scanState :=
  let trimmed := trimSpaceL raw
  if trimmed = [] ∨ startsWithL trimmed ['#'] then st
  else
    let clean := trimSpaceL (trimSufL trimmed [','])
    if clean = ['{'] ∨ clean = ['}'] ∨ clean = ['['] ∨ clean = [']'] then
      if st.sect = "features" ∧ clean = ['}'] ∧ st.cur.fields ≠ [] then
        { flushCur st with cur := { fields := [], line := 0 } }
      else st
    else if st.sect = "features" then
      match stepMarker '-' n clean st with
      | (none, st1) => st1
      | (some clean1, st1) =>
        match stepMarker '{' n clean1 st1 with
        | (none, st2) => st2
        | (some clean2, st2) =>
          if clean2 = ['}'] then
            if st2.cur.fields ≠ [] then
              { flushCur st2 with cur := { fields := [], line := 0 } }
            else st2
          else stepKV n clean2 st2
    else stepKV n clean st

/-- The whole scanning loop, `n` being the number of the first line of
`lines`. -/
def runLines : List (List Char) → Nat → scanState → scanState
  | [], _, st => st
  | l :: rest, n, st => runLines rest (n + 1) (parseStep n l st)

/-- Everything `parseConfig` does after splitting the input into lines:
run the loop from line 1 and flush a non-empty pending feature entry at
end of input. -/
def parseConfigLines (lines : List (List Char)) : parsedConfig :=
  let st := runLines lines 1 initScanState
  let st2 := if st.cur.fields ≠ [] then flushCur st else st
  st2.cfg

/-- Splitting into scanner tokens: maximal newline-free runs, with no
empty token after a trailing newline (`bufio.ScanLines`). -/
def splitRawAux : List Char → List Char → List (List Char)
  | [], acc => [acc.reverse]
  | c :: rest, acc =>
    if c = '\n' then
      acc.reverse :: (if rest = [] then [] else splitRawAux rest [])
    else splitRawAux rest (c :: acc)

/-- Scanner tokens of the raw input; the empty input has none. -/
def splitRaw (l : List Char) : List (List Char) :=
  if l = [] then [] else splitRawAux l []

/-- Go `bufio.MaxScanTokenSize`, the default token-size limit of
`bufio.Scanner`. -/
def maxScanTokenSize : Nat := 65536

/-- The scan succeeds iff no token overflows the scanner buffer: a line
of `maxScanTokenSize` or more bytes makes `Scan` fail with `ErrTooLong`
before its newline (or the end of input) is ever seen. -/
def scannerOk (l : List Char) : Bool :=
  (splitRaw l).all (fun line => decide (line.length < maxScanTokenSize))

/-- Go `bufio.ScanLines` drops one final carriage return from each
token. -/
def dropCR (l : List Char) : List Char :=
  match l.getLast? with
  | some c => if c = '\r' then l.dropLast else l
  | none => l

/-- Go `linter.parseConfig`: scan the input line by line; the only error
is the scanner's token-size failure. -/
def parseConfig (data : String) : Except String parsedConfig :=
  if scannerOk data.data then
    Except.ok (parseConfigLines ((splitRaw data.data).map dropCR))
  else
    Except.error "bufio.Scanner: token too long"

/-- Anchor line for metadata issues: Go computes
`baseLine := cfg.MetadataLine; if baseLine == 0 { baseLine = 1; ... }`
(the nested `if` in the source sets 1 again and is redundant). -/
def metadataBaseLine (cfg : parsedConfig) : Nat :=
  if cfg.metadataLine = 0 then 1 else cfg.metadataLine

/-- Anchor line for settings issues. -/
def settingsBaseLine (cfg : parsedConfig) : Nat :=
  if cfg.settingsLine = 0 then 1 else cfg.settingsLine

/-- The `name` block of Go `validateMetadata`: `!hasName` makes the Go
zero value's `Line` 0, so the issue is anchored at the base line. -/
def validateMetadataName (cfg : parsedConfig) (issues : List Issue) : List Issue :=
  match lookupField cfg.metadata "name" with
  | none =>
    issues ++ [{ line := metadataBaseLine cfg, severity := Severity.error
                 message := "metadata.name is required"
                 suggestedFix := "Set metadata.name to a non-empty identifier, e.g. metadata.name: my-service" }]
  | some name =>
    if name.value = "" then
      issues ++ [{ line := if name.line = 0 then metadataBaseLine cfg else name.line
                   severity := Severity.error
                   message := "metadata.name is required"
                   suggestedFix := "Set metadata.name to a non-empty identifier, e.g. metadata.name: my-service" }]
    else issues

/-- The `env` block of Go `validateMetadata`. -/
def validateMetadataEnv (cfg : parsedConfig) (issues : List Issue) : List Issue :=
  match lookupField cfg.metadata "env" with
  | none =>
    issues ++ [{ line := metadataBaseLine cfg, severity := Severity.error
                 message := "metadata.env is required"
                 suggestedFix := "Set metadata.env to one of: " ++ String.intercalate ", " allowedEnvironments }]
  | some env =>
    if env.value = "" then
      issues ++ [{ line := if env.line = 0 then metadataBaseLine cfg else env.line
                   severity := Severity.error
                   message := "metadata.env is required"
                   suggestedFix := "Set metadata.env to one of: " ++ String.intercalate ", " allowedEnvironments }]
    else if containsStr allowedEnvironments env.value then issues
    else
      issues ++ [{ line := env.line, severity := Severity.warn
                   message := "metadata.env value " ++ goQuote env.value ++ " is not recognized"
                   suggestedFix := "Use one of: " ++ String.intercalate ", " allowedEnvironments }]

/-- Go `linter.validateMetadata`, threading the issue slice the pointer
parameter threads in Go. -/
def validateMetadata (cfg : parsedConfig) (issues : List Issue) : List Issue :=
  if cfg.metadata = [] then
    issues ++ [{ line := metadataBaseLine cfg, severity := Severity.error
                 message := "missing metadata section"
                 suggestedFix := "Add a 'metadata' mapping with 'name' and 'env' fields" }]
  else
    validateMetadataEnv cfg (validateMetadataName cfg issues)

/-- The `replicas` block of Go `validateSettings`. -/
def validateSettingsReplicas (cfg : parsedConfig) (issues : List Issue) : List Issue :=
  match lookupField cfg.settings "replicas" with
  | none =>
    issues ++ [{ line := settingsBaseLine cfg, severity := Severity.error
                 message := "settings.replicas is required"
                 suggestedFix := "Add settings.replicas: 1" }]
  | some replicas =>
    if isPositiveInt replicas.value then issues
    else
      issues ++ [{ line := replicas.line, severity := Severity.error
                   message := "settings.replicas must be a positive integer"
                   suggestedFix := "" }]

/-- The `timeout` block of Go `validateSettings`. -/
def validateSettingsTimeout (cfg : parsedConfig) (issues : List Issue) : List Issue :=
  match lookupField cfg.settings "timeout" with
  | none =>
    issues ++ [{ line := settingsBaseLine cfg, severity := Severity.warn
                 message := "settings.timeout is missing; defaulting to 30"
                 suggestedFix := "Add settings.timeout: " ++ toString defaultTimeout }]
  | some timeout =>
    if isPositiveInt timeout.value then issues
    else
      issues ++ [{ line := timeout.line, severity := Severity.warn
                   message := "settings.timeout should be a positive integer"
                   suggestedFix := "" }]

/-- Go `linter.validateSettings`. -/
def validateSettings (cfg : parsedConfig) (issues : List Issue) : List Issue :=
  if cfg.settings = [] then
    issues ++ [{ line := settingsBaseLine cfg, severity := Severity.error
                 message := "missing settings section"
                 suggestedFix := "Add a 'settings' mapping with 'replicas' and 'timeout'" }]
  else
    validateSettingsTimeout cfg (validateSettingsReplicas cfg issues)

/-- The `name` check of one iteration of Go `validateFeatures`. -/
def featureNameIssue (f : featureEntry) (issues : List Issue) : List Issue :=
  match lookupField f.fields "name" with
  | none =>
    issues ++ [{ line := f.line, severity := Severity.warn
                 message := "feature entry missing name"
                 suggestedFix := "Add name: <feature-name>" }]
  | some name =>
    if name.value = "" then
      issues ++ [{ line := f.line, severity := Severity.warn
                   message := "feature entry missing name"
                   suggestedFix := "Add name: <feature-name>" }]
    else issues

/-- The `enabled` check of one iteration of Go `validateFeatures` (the Go
zero value for a missing `enabled` never satisfies `isBool`). -/
def featureEnabledIssue (f : featureEntry) (issues : List Issue) : List Issue :=
  match lookupField f.fields "enabled" with
  | none =>
    issues ++ [{ line := f.line, severity := Severity.warn
                 message := "feature enabled should be true or false"
                 suggestedFix := "" }]
  | some enabled =>
    if isBool enabled.value then issues
    else
      issues ++ [{ line := f.line, severity := Severity.warn
                   message := "feature enabled should be true or false"
                   suggestedFix := "" }]

/-- One iteration of the loop of Go `validateFeatures`. -/
def validateFeatureEntry (f : featureEntry) (issues : List Issue) : List Issue :=
  if f.fields = [] then
    issues ++ [{ line := f.line, severity := Severity.warn
                 message := "each feature entry should be a mapping"
                 suggestedFix := "" }]
  else
    featureEnabledIssue f (featureNameIssue f issues)

/-- Go `linter.validateFeatures`. -/
def validateFeatures (cfg : parsedConfig) (issues : List Issue) : List Issue :=
  cfg.features.foldl (fun acc f => validateFeatureEntry f acc) issues

/-- Go `linter.LintBytes`: parse, then run the three validators in fixed
order over one shared issue slice. -/
def lintBytes (data : String) : Except String (List Issue) :=
  match parseConfig data with
  | Except.error e => Except.error e
  | Except.ok cfg =>
    Except.ok (validateFeatures cfg (validateSettings cfg (validateMetadata cfg [])))

/-- The fatal-determination loop of `handleLint` in `cmd/server/main.go`
(it breaks at the first matching issue). -/
def handleLintFatal (strict : Bool) : List Issue → Bool
  | [] => false
  | issue :: rest =>
    if issue.severity = Severity.error ∨ (strict = true ∧ issue.severity = Severity.warn) then
      true
    else handleLintFatal strict rest

/-- The fatal-determination loop of the CLI's `lintOne` (it keeps
iterating, setting `fatal` without breaking). -/
def lintOneFatal (strict : Bool) (issues : List Issue) : Bool :=
  issues.foldl
    (fun fatal issue =>
      if issue.severity = Severity.error ∨ (strict = true ∧ issue.severity = Severity.warn) then
        true
      else fatal)
    false

/-- Modelled from the spec (section 6) for comparison with the two
caller loops: fatal iff some issue is an error, or strict mode is on and
some issue is a warning. -/
def fatalPolicySpec (strict : Bool) (issues : List Issue) : Bool :=
  issues.any (fun i => i.severity == Severity.error) ||
    (strict && issues.any (fun i => i.severity == Severity.warn))

/-- Statement vocabulary: `s` starts with `pre`. -/
def strStarts (s pre : String) : Bool :=
  startsWithL s.data pre.data

/-- Statement vocabulary: the parsed config of an input (the error case,
which never holds where this is used, yields the empty config). -/
def extractCfg (d : String) : parsedConfig :=
  match parseConfig d with
  | Except.ok cfg => cfg
  | Except.error _ =>
    { metadata := [], metadataLine := 0, settings := [], settingsLine := 0
      features := [], featuresLine := 0 }

/-- Statement vocabulary: key present with a non-empty value. -/
def fieldNonEmpty (m : List (String × fieldInfo)) (k : String) : Bool :=
  match lookupField m k with
  | some fi => decide (fi.value ≠ "")
  | none => false

/-- Statement vocabulary: key present and its value passes the
positive-integer test of the code. -/
def fieldPosInt (m : List (String × fieldInfo)) (k : String) : Bool :=
  match lookupField m k with
  | some fi => isPositiveInt fi.value
  | none => false

/-- Statement vocabulary: key present with a boolean value in the sense
of `isBool`. -/
def fieldBoolOk (m : List (String × fieldInfo)) (k : String) : Bool :=
  match lookupField m k with
  | some fi => isBool fi.value
  | none => false

/-- Statement vocabulary: key present with a value in the allowed
environment set. -/
def fieldEnvAllowed (m : List (String × fieldInfo)) (k : String) : Bool :=
  match lookupField m k with
  | some fi => containsStr allowedEnvironments fi.value
  | none => false

/-- Invariant: every stored field carries a 1-based line. -/
def goodFieldsP (m : List (String × fieldInfo)) : Prop :=
  ∀ p ∈ m, 1 ≤ p.2.line

/-- Invariant of a feature entry holding at least one field: its anchor
line is 1-based and equals the line of its first-stored field (the last
element of the association list, since bindings are prepended). -/
def goodEntryP (e : featureEntry) : Prop :=
  1 ≤ e.line ∧ ∃ p, e.fields.getLast? = some p ∧ p.2.line = e.line

/-- Invariant of a parsed config as built by the scanning loop. -/
def goodCfgP (cfg : parsedConfig) : Prop :=
  goodFieldsP cfg.metadata ∧ goodFieldsP cfg.settings ∧
    (cfg.metadataLine = 0 ∨ 1 ≤ cfg.metadataLine) ∧
    (cfg.settingsLine = 0 ∨ 1 ≤ cfg.settingsLine) ∧
    ∀ e ∈ cfg.features, e.fields ≠ [] ∧ goodEntryP e

/-- Invariant of the scanning state. -/
def goodStP (st : scanState) : Prop :=
  goodCfgP st.cfg ∧ (st.cur.fields ≠ [] → goodEntryP st.cur)

/-- Input with a negative `replicas` value (used to exhibit the behavior
of the positive-integer test). -/
def c1Input : String :=
  "metadata:\n  name: a\n  env: dev\nsettings:\n  replicas: -5\n  timeout: 60\nfeatures:\n  - name: f\n    enabled: true"

/-- Scenario B of the spec, as it appears in the repository's own test
`TestLintConfigValid`. -/
def scenarioB : String :=
  "\nmetadata:\n  name: awesome\n  env: prod\nsettings:\n  replicas: 2\n  timeout: 60\nfeatures:\n  - name: featureA\n    enabled: true\n"

/-- Input with a valid `settings` section and no `metadata` section. -/
def c3Input : String :=
  "settings:\n  replicas: 1\n  timeout: 5"

/-- Input whose `metadata`, `settings` and `features` headers each occur
twice: first on lines 1, 2, 3 and again on lines 4, 5, 6. -/
def c5Input : String :=
  "metadata:\nsettings:\nfeatures:\nmetadata:\nsettings:\nfeatures:"

/-- Input whose feature entry is opened by a bare `-` marker on line 2
while its only field arrives on line 3. -/
def c6Input : String :=
  "features:\n-\n  name: x"

/-- Input whose feature entry marker carries its first field inline. -/
def c6WitnessInput : String :=
  "features:\n- name: x\n  enabled: true"

/-- A single line of 65536 bytes: one byte beyond what `bufio.Scanner`
can buffer while looking for a newline. -/
def c9LongInput : String :=
  String.mk (List.replicate 65536 'a')

/-! Accumulator lemmas: every validator appends to the issue slice it is
handed, exactly as the Go pointer parameter does. -/

theorem validateMetadataName_acc (cfg : parsedConfig) (issues : List Issue) :
    validateMetadataName cfg issues = issues ++ validateMetadataName cfg [] := by
  cases h : lookupField cfg.metadata "name" with
  | none => simp [validateMetadataName, h]
  | some name =>
    by_cases hv : name.value = "" <;> simp [validateMetadataName, h, hv]

theorem validateMetadataEnv_acc (cfg : parsedConfig) (issues : List Issue) :
    validateMetadataEnv cfg issues = issues ++ validateMetadataEnv cfg [] := by
  cases h : lookupField cfg.metadata "env" with
  | none => simp [validateMetadataEnv, h]
  | some env =>
    by_cases hv : env.value = ""
    · simp [validateMetadataEnv, h, hv]
    · by_cases hc : containsStr allowedEnvironments env.value = true <;>
        simp [validateMetadataEnv, h, hv, hc]

theorem validateMetadata_acc (cfg : parsedConfig) (issues : List Issue) :
    validateMetadata cfg issues = issues ++ validateMetadata cfg [] := by
  unfold validateMetadata
  split
  · simp
  · rw [validateMetadataEnv_acc cfg (validateMetadataName cfg issues),
      validateMetadataName_acc cfg issues,
      validateMetadataEnv_acc cfg (validateMetadataName cfg [])]
    simp

theorem validateSettingsReplicas_acc (cfg : parsedConfig) (issues : List Issue) :
    validateSettingsReplicas cfg issues = issues ++ validateSettingsReplicas cfg [] := by
  cases h : lookupField cfg.settings "replicas" with
  | none => simp [validateSettingsReplicas, h]
  | some replicas =>
    by_cases hv : isPositiveInt replicas.value = true <;>
      simp [validateSettingsReplicas, h, hv]

theorem validateSettingsTimeout_acc (cfg : parsedConfig) (issues : List Issue) :
    validateSettingsTimeout cfg issues = issues ++ validateSettingsTimeout cfg [] := by
  cases h : lookupField cfg.settings "timeout" with
  | none => simp [validateSettingsTimeout, h]
  | some timeout =>
    by_cases hv : isPositiveInt timeout.value = true <;>
      simp [validateSettingsTimeout, h, hv]

theorem validateSettings_acc (cfg : parsedConfig) (issues : List Issue) :
    validateSettings cfg issues = issues ++ validateSettings cfg [] := by
  unfold validateSettings
  split
  · simp
  · rw [validateSettingsTimeout_acc cfg (validateSettingsReplicas cfg issues),
      validateSettingsReplicas_acc cfg issues,
      validateSettingsTimeout_acc cfg (validateSettingsReplicas cfg [])]
    simp

theorem featureNameIssue_acc (f : featureEntry) (issues : List Issue) :
    featureNameIssue f issues = issues ++ featureNameIssue f [] := by
  cases h : lookupField f.fields "name" with
  | none => simp [featureNameIssue, h]
  | some name =>
    by_cases hv : name.value = "" <;> simp [featureNameIssue, h, hv]

theorem featureEnabledIssue_acc (f : featureEntry) (issues : List Issue) :
    featureEnabledIssue f issues = issues ++ featureEnabledIssue f [] := by
  cases h : lookupField f.fields "enabled" with
  | none => simp [featureEnabledIssue, h]
  | some enabled =>
    by_cases hv : isBool enabled.value = true <;> simp [featureEnabledIssue, h, hv]

theorem validateFeatureEntry_acc (f : featureEntry) (issues : List Issue) :
    validateFeatureEntry f issues = issues ++ validateFeatureEntry f [] := by
  unfold validateFeatureEntry
  split
  · simp
  · rw [featureEnabledIssue_acc f (featureNameIssue f issues),
      featureNameIssue_acc f issues,
      featureEnabledIssue_acc f (featureNameIssue f [])]
    simp

theorem validateFeatures_foldl_acc (fs : List featureEntry) :
    ∀ issues : List Issue,
      fs.foldl (fun acc f => validateFeatureEntry f acc) issues =
        issues ++ fs.foldl (fun acc f => validateFeatureEntry f acc) [] := by
  induction fs with
  | nil => intro issues; simp
  | cons f rest ih =>
    intro issues
    simp only [List.foldl_cons]
    rw [ih (validateFeatureEntry f issues), validateFeatureEntry_acc f issues,
      ih (validateFeatureEntry f []), List.append_assoc]

theorem validateFeatures_acc (cfg : parsedConfig) (issues : List Issue) :
    validateFeatures cfg issues = issues ++ validateFeatures cfg [] := by
  unfold validateFeatures
  exact validateFeatures_foldl_acc cfg.features issues

/-- The lint result is the concatenation of the three validators run on
an empty slice. -/
theorem lintBytes_concat (data : String) :
    lintBytes data = (parseConfig data).map
      (fun cfg => validateMetadata cfg [] ++ validateSettings cfg [] ++ validateFeatures cfg []) := by
  unfold lintBytes
  cases hp : parseConfig data with
  | error e => rfl
  | ok cfg =>
    simp only [Except.map]
    rw [validateFeatures_acc cfg (validateSettings cfg (validateMetadata cfg [])),
      validateSettings_acc cfg (validateMetadata cfg []), List.append_assoc]

/-- C7: the issue sequence returned by `LintBytes` is the metadata
validator's issues, then the settings validator's, then the features
validator's, concatenated in that fixed order with no re-sorting. -/
theorem c7_issue_order (data : String) :
    lintBytes data = (parseConfig data).map
      (fun cfg => validateMetadata cfg [] ++ validateSettings cfg [] ++ validateFeatures cfg []) :=
  lintBytes_concat data

/-! The two callers' fatal-determination loops. -/

theorem fatalPolicySpec_nil (strict : Bool) : fatalPolicySpec strict [] = false := by
  cases strict <;> rfl

theorem fatalPolicySpec_cons (strict : Bool) (i : Issue) (rest : List Issue) :
    fatalPolicySpec strict (i :: rest) =
      ((if i.severity = Severity.error ∨ (strict = true ∧ i.severity = Severity.warn) then true
        else false) || fatalPolicySpec strict rest) := by
  cases hs : i.severity <;> cases strict <;>
    cases hA : rest.any (fun i => i.severity == Severity.error) <;>
    cases hB : rest.any (fun i => i.severity == Severity.warn) <;>
    simp [fatalPolicySpec, List.any_cons, hs, hA, hB] <;> decide

theorem handleLintFatal_eq (strict : Bool) (issues : List Issue) :
    handleLintFatal strict issues = fatalPolicySpec strict issues := by
  induction issues with
  | nil => rw [fatalPolicySpec_nil]; rfl
  | cons i rest ih =>
    rw [fatalPolicySpec_cons]
    by_cases hc : i.severity = Severity.error ∨ (strict = true ∧ i.severity = Severity.warn) <;>
      simp [handleLintFatal, hc, ih]

theorem lintOneFatal_foldl (strict : Bool) (issues : List Issue) :
    ∀ b : Bool,
      issues.foldl
        (fun fatal issue =>
          if issue.severity = Severity.error ∨ (strict = true ∧ issue.severity = Severity.warn) then
            true
          else fatal) b = (b || fatalPolicySpec strict issues) := by
  induction issues with
  | nil => intro b; rw [fatalPolicySpec_nil]; cases b <;> rfl
  | cons i rest ih =>
    intro b
    simp only [List.foldl_cons]
    rw [ih, fatalPolicySpec_cons]
    by_cases hc : i.severity = Severity.error ∨ (strict = true ∧ i.severity = Severity.warn) <;>
      cases b <;> simp [hc]

/-- C8: both the CLI's `lintOne` and the HTTP `handleLint` compute the
shared fatal policy: fatal iff some issue has severity error, or strict
is on and some issue has severity warn. -/
theorem c8_fatal_policy (strict : Bool) (issues : List Issue) :
    handleLintFatal strict issues = fatalPolicySpec strict issues ∧
      lintOneFatal strict issues = fatalPolicySpec strict issues := by
  refine ⟨handleLintFatal_eq strict issues, ?_⟩
  unfold lintOneFatal
  rw [lintOneFatal_foldl strict issues false]
  simp

/-- C1 (code behavior at the failing inputs): `isPositiveInt` accepts
"-5" (Atoi parses it to the negative integer -5) and "00" (which parses
to zero but is not the literal "0"), so a config with `replicas: -5`
lints with zero issues; the claimed Error and Warning are not emitted. -/
theorem c1_positive_int_divergence :
    isPositiveInt "-5" = true ∧ isPositiveInt "00" = true ∧
      atoi "-5" = some (-5) ∧ atoi "00" = some 0 ∧
      lintBytes c1Input = Except.ok [] :=
  ⟨by decide, by decide, by decide, by decide, rfl⟩

/-! Message classification of each validator's output. -/

theorem startsWithL_append (pre rest : List Char) :
    startsWithL (pre ++ rest) pre = true := by
  induction pre with
  | nil => simp [startsWithL]
  | cons c cs ih => simp [startsWithL, ih]

theorem validateMetadataName_msgs (cfg : parsedConfig) :
    ∀ i ∈ validateMetadataName cfg [], i.message = "metadata.name is required" := by
  intro i hi
  cases h : lookupField cfg.metadata "name" with
  | none => simp [validateMetadataName, h] at hi; rw [hi]
  | some name =>
    by_cases hv : name.value = "" <;> simp [validateMetadataName, h, hv] at hi
    rw [hi]

theorem validateMetadataEnv_msgs (cfg : parsedConfig) :
    ∀ i ∈ validateMetadataEnv cfg [],
      i.message = "metadata.env is required" ∨
        strStarts i.message "metadata.env value " = true := by
  intro i hi
  cases h : lookupField cfg.metadata "env" with
  | none => simp [validateMetadataEnv, h] at hi; rw [hi]; left; rfl
  | some env =>
    by_cases hv : env.value = ""
    · simp [validateMetadataEnv, h, hv] at hi; rw [hi]; left; rfl
    · by_cases hc : containsStr allowedEnvironments env.value = true
      · simp [validateMetadataEnv, h, hv, hc] at hi
      · simp [validateMetadataEnv, h, hv, hc] at hi
        rw [hi]; right
        show startsWithL ("metadata.env value " ++ goQuote env.value ++ " is not recognized").data
          "metadata.env value ".data = true
        have hd : ("metadata.env value " ++ goQuote env.value ++ " is not recognized").data =
            "metadata.env value ".data ++ (goQuote env.value ++ " is not recognized").data := rfl
        rw [hd]
        exact startsWithL_append "metadata.env value ".data (goQuote env.value ++ " is not recognized").data

theorem validateSettingsReplicas_msgs (cfg : parsedConfig) :
    ∀ i ∈ validateSettingsReplicas cfg [],
      i.message = "settings.replicas is required" ∨
        i.message = "settings.replicas must be a positive integer" := by
  intro i hi
  cases h : lookupField cfg.settings "replicas" with
  | none => simp [validateSettingsReplicas, h] at hi; rw [hi]; left; rfl
  | some replicas =>
    by_cases hv : isPositiveInt replicas.value = true <;>
      simp [validateSettingsReplicas, h, hv] at hi
    rw [hi]; right; rfl

theorem validateSettingsTimeout_msgs (cfg : parsedConfig) :
    ∀ i ∈ validateSettingsTimeout cfg [],
      i.message = "settings.timeout is missing; defaulting to 30" ∨
        i.message = "settings.timeout should be a positive integer" := by
  intro i hi
  cases h : lookupField cfg.settings "timeout" with
  | none => simp [validateSettingsTimeout, h] at hi; rw [hi]; left; rfl
  | some timeout =>
    by_cases hv : isPositiveInt timeout.value = true <;>
      simp [validateSettingsTimeout, h, hv] at hi
    rw [hi]; right; rfl

theorem validateSettings_split (cfg : parsedConfig) (h : ¬ cfg.settings = []) :
    validateSettings cfg [] = validateSettingsReplicas cfg [] ++ validateSettingsTimeout cfg [] := by
  unfold validateSettings
  rw [if_neg h]
  exact validateSettingsTimeout_acc cfg (validateSettingsReplicas cfg [])

theorem validateSettings_msgs (cfg : parsedConfig) :
    ∀ i ∈ validateSettings cfg [],
      i.message = "missing settings section" ∨
        i.message = "settings.replicas is required" ∨
        i.message = "settings.replicas must be a positive integer" ∨
        i.message = "settings.timeout is missing; defaulting to 30" ∨
        i.message = "settings.timeout should be a positive integer" := by
  intro i hi
  by_cases hempty : cfg.settings = []
  · simp [validateSettings, hempty] at hi
    rw [hi]; left; rfl
  · rw [validateSettings_split cfg hempty] at hi
    rcases List.mem_append.mp hi with hr | ht
    · rcases validateSettingsReplicas_msgs cfg i hr with h1 | h1 <;> rw [h1] <;> simp
    · rcases validateSettingsTimeout_msgs cfg i ht with h1 | h1 <;> rw [h1] <;> simp

theorem featureNameIssue_msgs (f : featureEntry) :
    ∀ i ∈ featureNameIssue f [], i.message = "feature entry missing name" := by
  intro i hi
  cases h : lookupField f.fields "name" with
  | none => simp [featureNameIssue, h] at hi; rw [hi]
  | some name =>
    by_cases hv : name.value = "" <;> simp [featureNameIssue, h, hv] at hi
    rw [hi]

theorem featureEnabledIssue_msgs (f : featureEntry) :
    ∀ i ∈ featureEnabledIssue f [], i.message = "feature enabled should be true or false" := by
  intro i hi
  cases h : lookupField f.fields "enabled" with
  | none => simp [featureEnabledIssue, h] at hi; rw [hi]
  | some enabled =>
    by_cases hv : isBool enabled.value = true <;> simp [featureEnabledIssue, h, hv] at hi
    rw [hi]

theorem validateFeatureEntry_split (f : featureEntry) (h : ¬ f.fields = []) :
    validateFeatureEntry f [] = featureNameIssue f [] ++ featureEnabledIssue f [] := by
  unfold validateFeatureEntry
  rw [if_neg h]
  exact featureEnabledIssue_acc f (featureNameIssue f [])

theorem validateFeatureEntry_msgs (f : featureEntry) :
    ∀ i ∈ validateFeatureEntry f [],
      i.message = "each feature entry should be a mapping" ∨
        i.message = "feature entry missing name" ∨
        i.message = "feature enabled should be true or false" := by
  intro i hi
  by_cases hempty : f.fields = []
  · simp [validateFeatureEntry, hempty] at hi
    rw [hi]; left; rfl
  · rw [validateFeatureEntry_split f hempty] at hi
    rcases List.mem_append.mp hi with hn | he
    · rw [featureNameIssue_msgs f i hn]; simp
    · rw [featureEnabledIssue_msgs f i he]; simp

theorem validateFeatures_foldl_msgs (fs : List featureEntry) :
    ∀ i ∈ fs.foldl (fun acc f => validateFeatureEntry f acc) [],
      i.message = "each feature entry should be a mapping" ∨
        i.message = "feature entry missing name" ∨
        i.message = "feature enabled should be true or false" := by
  induction fs with
  | nil => intro i hi; simp at hi
  | cons f rest ih =>
    intro i hi
    simp only [List.foldl_cons] at hi
    rw [validateFeatures_foldl_acc rest (validateFeatureEntry f [])] at hi
    rcases List.mem_append.mp hi with hf | hr
    · exact validateFeatureEntry_msgs f i hf
    · exact ih i hr

theorem validateFeatures_msgs (cfg : parsedConfig) :
    ∀ i ∈ validateFeatures cfg [],
      i.message = "each feature entry should be a mapping" ∨
        i.message = "feature entry missing name" ∨
        i.message = "feature enabled should be true or false" :=
  validateFeatures_foldl_msgs cfg.features

/-- C3: when the parsed metadata mapping is empty (in particular, when
the input has no metadata section at all) the lint result starts with
the single Error "missing metadata section", anchored at the metadata
header line with fallback 1 (`metadataBaseLine`), and no other issue of
the result is a metadata issue: none repeats that message and none
starts with "metadata." (which rules out "metadata.name is required",
"metadata.env is required" and the metadata.env warnings). -/
theorem c3_missing_metadata (data : String) (cfg : parsedConfig)
    (hp : parseConfig data = Except.ok cfg) (hm : cfg.metadata = []) :
    ∃ rest, lintBytes data = Except.ok
        ({ line := metadataBaseLine cfg, severity := Severity.error
           message := "missing metadata section"
           suggestedFix := "Add a 'metadata' mapping with 'name' and 'env' fields" } :: rest) ∧
      ∀ i ∈ rest, i.message ≠ "missing metadata section" ∧
        strStarts i.message "metadata." = false := by
  refine ⟨validateSettings cfg [] ++ validateFeatures cfg [], ?_, ?_⟩
  · rw [lintBytes_concat data, hp]
    simp only [Except.map]
    rw [show validateMetadata cfg [] =
        [{ line := metadataBaseLine cfg, severity := Severity.error
           message := "missing metadata section"
           suggestedFix := "Add a 'metadata' mapping with 'name' and 'env' fields" }] by
      simp [validateMetadata, hm]]
    simp
  · intro i hi
    rcases List.mem_append.mp hi with hs | hf
    · rcases validateSettings_msgs cfg i hs with h1 | h1 | h1 | h1 | h1 <;>
        rw [h1] <;> exact ⟨by decide, by decide⟩
    · rcases validateFeatures_msgs cfg i hf with h1 | h1 | h1 <;>
        rw [h1] <;> exact ⟨by decide, by decide⟩

/-! Invariants of the scanning loop. -/

theorem lookupField_mem (m : List (String × fieldInfo)) (k : String) (fi : fieldInfo)
    (h : lookupField m k = some fi) : ∃ kk, (kk, fi) ∈ m := by
  induction m with
  | nil => simp [lookupField] at h
  | cons p rest ih =>
    rcases p with ⟨k2, v⟩
    by_cases hk : k2 = k
    · simp [lookupField, hk] at h
      exact ⟨k2, by simp [h]⟩
    · simp [lookupField, hk] at h
      obtain ⟨kk, hm⟩ := ih h
      exact ⟨kk, List.mem_cons_of_mem _ hm⟩

theorem getLast?_cons_of_ne {α : Type} (a : α) (l : List α) (h : l ≠ []) :
    (a :: l).getLast? = l.getLast? := by
  cases l with
  | nil => exact absurd rfl h
  | cons b t => simp [List.getLast?_cons_cons]

theorem flushCur_good (st : scanState) (h : goodStP st) (hne : st.cur.fields ≠ []) :
    goodStP (flushCur st) := by
  obtain ⟨⟨hmd, hst, hml, hsl, hfeats⟩, hcur⟩ := h
  refine ⟨⟨hmd, hst, hml, hsl, ?_⟩, hcur⟩
  intro e he
  rw [show (flushCur st).cfg.features = st.cfg.features ++ [st.cur] from rfl] at he
  rcases List.mem_append.mp he with h1 | h1
  · exact hfeats e h1
  · rw [List.mem_singleton.mp h1]
    exact ⟨hne, hcur hne⟩

theorem stepMarker_good (mk : Char) (n : Nat) (clean : List Char) (st : scanState)
    (_hn : 1 ≤ n) (h : goodStP st) : goodStP (stepMarker mk n clean st).2 := by
  unfold stepMarker
  by_cases hp : startsWithL clean [mk] = true
  · rw [if_pos hp]
    have h1 : goodStP (if st.cur.fields ≠ [] then flushCur st else st) := by
      by_cases hf : st.cur.fields ≠ []
      · rw [if_pos hf]; exact flushCur_good st h hf
      · rw [if_neg hf]; exact h
    have h2 : goodStP (startCur n (if st.cur.fields ≠ [] then flushCur st else st)) :=
      ⟨h1.1, fun hc => absurd rfl hc⟩
    dsimp only
    split <;> exact h2
  · rw [if_neg hp]; exact h

theorem stepKV_good (n : Nat) (clean : List Char) (st : scanState)
    (hn : 1 ≤ n) (h : goodStP st) : goodStP (stepKV n clean st) := by
  obtain ⟨⟨hmd, hst, hml, hsl, hfeats⟩, hcur⟩ := h
  unfold stepKV
  rcases hkv : parseKeyValue clean with ⟨key, value, hasValue⟩
  dsimp only
  split
  · exact ⟨⟨hmd, hst, hml, hsl, hfeats⟩, hcur⟩
  split
  · exact ⟨⟨hmd, hst, Or.inr hn, hsl, hfeats⟩, hcur⟩
  split
  · exact ⟨⟨hmd, hst, hml, Or.inr hn, hfeats⟩, hcur⟩
  split
  · exact ⟨⟨hmd, hst, hml, hsl, hfeats⟩, hcur⟩
  split
  · split
    · refine ⟨⟨?_, hst, hml, hsl, hfeats⟩, hcur⟩
      intro p hp
      rcases List.mem_cons.mp hp with h1 | h1
      · rw [h1]; exact hn
      · exact hmd p h1
    · exact ⟨⟨hmd, hst, hml, hsl, hfeats⟩, hcur⟩
  split
  · split
    · refine ⟨⟨hmd, ?_, hml, hsl, hfeats⟩, hcur⟩
      intro p hp
      rcases List.mem_cons.mp hp with h1 | h1
      · rw [h1]; exact hn
      · exact hst p h1
    · exact ⟨⟨hmd, hst, hml, hsl, hfeats⟩, hcur⟩
  split
  · split
    · exact ⟨⟨hmd, hst, hml, hsl, hfeats⟩, hcur⟩
    · refine ⟨⟨hmd, hst, hml, hsl, hfeats⟩, ?_⟩
      intro _
      by_cases hcf : st.cur.fields = []
      · rw [if_pos hcf]
        refine ⟨hn, (key, { value := value, line := n }), ?_, rfl⟩
        simp [storeField]
      · rw [if_neg hcf]
        obtain ⟨hl, p, hp, hpl⟩ := hcur hcf
        refine ⟨hl, p, ?_, hpl⟩
        show ((key, { value := value, line := n }) :: st.cur.fields).getLast? = some p
        rw [getLast?_cons_of_ne _ _ hcf]
        exact hp
  · exact ⟨⟨hmd, hst, hml, hsl, hfeats⟩, hcur⟩

theorem parseStep_good (n : Nat) (raw : List Char) (st : scanState)
    (hn : 1 ≤ n) (h : goodStP st) : goodStP (parseStep n raw st) := by
  unfold parseStep
  dsimp only
  split
  · exact h
  split
  · split
    · rename_i hcond
      exact ⟨(flushCur_good st h hcond.2.2).1, fun hc => absurd rfl hc⟩
    · exact h
  split
  · rcases hsm : stepMarker '-' n (trimSpaceL (trimSufL (trimSpaceL raw) [','])) st with ⟨o1, st1⟩
    have h1 : goodStP st1 := by
      have hgm := stepMarker_good '-' n (trimSpaceL (trimSufL (trimSpaceL raw) [','])) st hn h
      rw [hsm] at hgm; exact hgm
    cases o1 with
    | none => exact h1
    | some clean1 =>
      dsimp only
      rcases hsm2 : stepMarker '{' n clean1 st1 with ⟨o2, st2⟩
      have h2 : goodStP st2 := by
        have hgm := stepMarker_good '{' n clean1 st1 hn h1
        rw [hsm2] at hgm; exact hgm
      cases o2 with
      | none => exact h2
      | some clean2 =>
        dsimp only
        split
        · split
          · rename_i hne
            exact ⟨(flushCur_good st2 h2 hne).1, fun hc => absurd rfl hc⟩
          · exact h2
        · exact stepKV_good n clean2 st2 hn h2
  · exact stepKV_good n (trimSpaceL (trimSufL (trimSpaceL raw) [','])) st hn h

theorem runLines_good (lines : List (List Char)) :
    ∀ (n : Nat) (st : scanState), 1 ≤ n → goodStP st → goodStP (runLines lines n st) := by
  induction lines with
  | nil => intro n st _ h; exact h
  | cons l rest ih =>
    intro n st hn h
    exact ih (n + 1) (parseStep n l st) (Nat.le_succ_of_le hn) (parseStep_good n l st hn h)

theorem initScanState_good : goodStP initScanState := by
  refine ⟨⟨?_, ?_, Or.inl rfl, Or.inl rfl, ?_⟩, fun hc => absurd rfl hc⟩
  · intro p hp; simp [initScanState] at hp
  · intro p hp; simp [initScanState] at hp
  · intro e he; simp [initScanState] at he

theorem parseConfigLines_good (lines : List (List Char)) :
    goodCfgP (parseConfigLines lines) := by
  unfold parseConfigLines
  dsimp only
  have h1 := runLines_good lines 1 initScanState (Nat.le_refl 1) initScanState_good
  split
  · rename_i hne
    exact (flushCur_good _ h1 hne).1
  · exact h1.1

theorem parseConfig_good (data : String) (cfg : parsedConfig)
    (h : parseConfig data = Except.ok cfg) : goodCfgP cfg := by
  unfold parseConfig at h
  split at h
  · rw [show cfg = parseConfigLines ((splitRaw data.data).map dropCR) from
      (Except.ok.injEq _ _).mp h.symm]
    exact parseConfigLines_good _
  · simp at h

/-! Line bounds on validator output. -/

theorem metadataBaseLine_ge (cfg : parsedConfig)
    (h : cfg.metadataLine = 0 ∨ 1 ≤ cfg.metadataLine) : 1 ≤ metadataBaseLine cfg := by
  unfold metadataBaseLine
  by_cases h0 : cfg.metadataLine = 0
  · rw [if_pos h0]
  · rw [if_neg h0]
    rcases h with h1 | h1
    · exact absurd h1 h0
    · exact h1

theorem settingsBaseLine_ge (cfg : parsedConfig)
    (h : cfg.settingsLine = 0 ∨ 1 ≤ cfg.settingsLine) : 1 ≤ settingsBaseLine cfg := by
  unfold settingsBaseLine
  by_cases h0 : cfg.settingsLine = 0
  · rw [if_pos h0]
  · rw [if_neg h0]
    rcases h with h1 | h1
    · exact absurd h1 h0
    · exact h1

theorem lookupField_line_ge (m : List (String × fieldInfo)) (k : String) (fi : fieldInfo)
    (hm : goodFieldsP m) (h : lookupField m k = some fi) : 1 ≤ fi.line := by
  obtain ⟨kk, hmem⟩ := lookupField_mem m k fi h
  exact hm (kk, fi) hmem

theorem validateMetadata_split (cfg : parsedConfig) (h : ¬ cfg.metadata = []) :
    validateMetadata cfg [] = validateMetadataName cfg [] ++ validateMetadataEnv cfg [] := by
  unfold validateMetadata
  rw [if_neg h]
  exact validateMetadataEnv_acc cfg (validateMetadataName cfg [])

theorem validateMetadataName_lines (cfg : parsedConfig) (hmd : goodFieldsP cfg.metadata)
    (hb : 1 ≤ metadataBaseLine cfg) : ∀ i ∈ validateMetadataName cfg [], 1 ≤ i.line := by
  intro i hi
  cases h : lookupField cfg.metadata "name" with
  | none => simp [validateMetadataName, h] at hi; rw [hi]; exact hb
  | some name =>
    by_cases hv : name.value = "" <;> simp [validateMetadataName, h, hv] at hi
    rw [hi]
    show 1 ≤ (if name.line = 0 then metadataBaseLine cfg else name.line)
    by_cases h0 : name.line = 0
    · rw [if_pos h0]; exact hb
    · rw [if_neg h0]; exact lookupField_line_ge cfg.metadata "name" name hmd h

theorem validateMetadataEnv_lines (cfg : parsedConfig) (hmd : goodFieldsP cfg.metadata)
    (hb : 1 ≤ metadataBaseLine cfg) : ∀ i ∈ validateMetadataEnv cfg [], 1 ≤ i.line := by
  intro i hi
  cases h : lookupField cfg.metadata "env" with
  | none => simp [validateMetadataEnv, h] at hi; rw [hi]; exact hb
  | some env =>
    by_cases hv : env.value = ""
    · simp [validateMetadataEnv, h, hv] at hi
      rw [hi]
      show 1 ≤ (if env.line = 0 then metadataBaseLine cfg else env.line)
      by_cases h0 : env.line = 0
      · rw [if_pos h0]; exact hb
      · rw [if_neg h0]; exact lookupField_line_ge cfg.metadata "env" env hmd h
    · by_cases hc : containsStr allowedEnvironments env.value = true <;>
        simp [validateMetadataEnv, h, hv, hc] at hi
      rw [hi]
      exact lookupField_line_ge cfg.metadata "env" env hmd h

theorem validateMetadata_lines (cfg : parsedConfig)
    (hmd : goodFieldsP cfg.metadata) (hml : cfg.metadataLine = 0 ∨ 1 ≤ cfg.metadataLine) :
    ∀ i ∈ validateMetadata cfg [], 1 ≤ i.line := by
  have hb := metadataBaseLine_ge cfg hml
  intro i hi
  by_cases hempty : cfg.metadata = []
  · simp [validateMetadata, hempty] at hi
    rw [hi]; exact hb
  · rw [validateMetadata_split cfg hempty] at hi
    rcases List.mem_append.mp hi with h1 | h1
    · exact validateMetadataName_lines cfg hmd hb i h1
    · exact validateMetadataEnv_lines cfg hmd hb i h1

theorem validateSettingsReplicas_lines (cfg : parsedConfig) (hst : goodFieldsP cfg.settings)
    (hb : 1 ≤ settingsBaseLine cfg) : ∀ i ∈ validateSettingsReplicas cfg [], 1 ≤ i.line := by
  intro i hi
  cases h : lookupField cfg.settings "replicas" with
  | none => simp [validateSettingsReplicas, h] at hi; rw [hi]; exact hb
  | some replicas =>
    by_cases hv : isPositiveInt replicas.value = true <;>
      simp [validateSettingsReplicas, h, hv] at hi
    rw [hi]
    exact lookupField_line_ge cfg.settings "replicas" replicas hst h

theorem validateSettingsTimeout_lines (cfg : parsedConfig) (hst : goodFieldsP cfg.settings)
    (hb : 1 ≤ settingsBaseLine cfg) : ∀ i ∈ validateSettingsTimeout cfg [], 1 ≤ i.line := by
  intro i hi
  cases h : lookupField cfg.settings "timeout" with
  | none => simp [validateSettingsTimeout, h] at hi; rw [hi]; exact hb
  | some timeout =>
    by_cases hv : isPositiveInt timeout.value = true <;>
      simp [validateSettingsTimeout, h, hv] at hi
    rw [hi]
    exact lookupField_line_ge cfg.settings "timeout" timeout hst h

theorem validateSettings_lines (cfg : parsedConfig)
    (hst : goodFieldsP cfg.settings) (hsl : cfg.settingsLine = 0 ∨ 1 ≤ cfg.settingsLine) :
    ∀ i ∈ validateSettings cfg [], 1 ≤ i.line := by
  have hb := settingsBaseLine_ge cfg hsl
  intro i hi
  by_cases hempty : cfg.settings = []
  · simp [validateSettings, hempty] at hi
    rw [hi]; exact hb
  · rw [validateSettings_split cfg hempty] at hi
    rcases List.mem_append.mp hi with h1 | h1
    · exact validateSettingsReplicas_lines cfg hst hb i h1
    · exact validateSettingsTimeout_lines cfg hst hb i h1

theorem featureNameIssue_line (f : featureEntry) :
    ∀ i ∈ featureNameIssue f [], i.line = f.line := by
  intro i hi
  cases h : lookupField f.fields "name" with
  | none => simp [featureNameIssue, h] at hi; rw [hi]
  | some name =>
    by_cases hv : name.value = "" <;> simp [featureNameIssue, h, hv] at hi
    rw [hi]

theorem featureEnabledIssue_line (f : featureEntry) :
    ∀ i ∈ featureEnabledIssue f [], i.line = f.line := by
  intro i hi
  cases h : lookupField f.fields "enabled" with
  | none => simp [featureEnabledIssue, h] at hi; rw [hi]
  | some enabled =>
    by_cases hv : isBool enabled.value = true <;> simp [featureEnabledIssue, h, hv] at hi
    rw [hi]

theorem validateFeatureEntry_line (f : featureEntry) :
    ∀ i ∈ validateFeatureEntry f [], i.line = f.line := by
  intro i hi
  by_cases hempty : f.fields = []
  · simp [validateFeatureEntry, hempty] at hi
    rw [hi]
  · rw [validateFeatureEntry_split f hempty] at hi
    rcases List.mem_append.mp hi with h1 | h1
    · exact featureNameIssue_line f i h1
    · exact featureEnabledIssue_line f i h1

theorem validateFeatures_foldl_lines (fs : List featureEntry)
    (hfs : ∀ e ∈ fs, 1 ≤ e.line) :
    ∀ i ∈ fs.foldl (fun acc f => validateFeatureEntry f acc) [], 1 ≤ i.line := by
  induction fs with
  | nil => intro i hi; simp at hi
  | cons f rest ih =>
    intro i hi
    simp only [List.foldl_cons] at hi
    rw [validateFeatures_foldl_acc rest (validateFeatureEntry f [])] at hi
    rcases List.mem_append.mp hi with hf | hr
    · rw [validateFeatureEntry_line f i hf]
      exact hfs f (List.mem_cons_self f rest)
    · exact ih (fun e he => hfs e (List.mem_cons_of_mem f he)) i hr

theorem validateFeatures_lines (cfg : parsedConfig)
    (hfs : ∀ e ∈ cfg.features, 1 ≤ e.line) :
    ∀ i ∈ validateFeatures cfg [], 1 ≤ i.line :=
  validateFeatures_foldl_lines cfg.features hfs

/-- C10: every issue produced by `LintBytes` carries a line number of at
least 1 (the field's or section header's 1-based line, or the fallback
line 1 when the section was never seen). -/
theorem c10_issue_lines (data : String) (issues : List Issue)
    (h : lintBytes data = Except.ok issues) : ∀ i ∈ issues, 1 ≤ i.line := by
  have hc := lintBytes_concat data
  rw [h] at hc
  cases hp : parseConfig data with
  | error e => rw [hp] at hc; simp [Except.map] at hc
  | ok cfg =>
    rw [hp] at hc
    simp only [Except.map] at hc
    have hiss : issues =
        validateMetadata cfg [] ++ validateSettings cfg [] ++ validateFeatures cfg [] :=
      (Except.ok.injEq _ _).mp hc
    obtain ⟨hmd, hst, hml, hsl, hfeats⟩ := parseConfig_good data cfg hp
    intro i hi
    rw [hiss] at hi
    rcases List.mem_append.mp hi with h1 | h1
    · rcases List.mem_append.mp h1 with h2 | h2
      · exact validateMetadata_lines cfg hmd hml i h2
      · exact validateSettings_lines cfg hst hsl i h2
    · exact validateFeatures_lines cfg (fun e he => ((hfeats e he).2).1) i h1

/-- Witness for C10 at the empty input: both issues carry line 1. -/
theorem c10_issue_lines_witness :
    lintBytes "" = Except.ok
        [({ line := 1, severity := Severity.error
            message := "missing metadata section"
            suggestedFix := "Add a 'metadata' mapping with 'name' and 'env' fields" } : Issue),
         { line := 1, severity := Severity.error
           message := "missing settings section"
           suggestedFix := "Add a 'settings' mapping with 'replicas' and 'timeout'" }] ∧
      ∀ i ∈ [({ line := 1, severity := Severity.error
                message := "missing metadata section"
                suggestedFix := "Add a 'metadata' mapping with 'name' and 'env' fields" } : Issue),
             { line := 1, severity := Severity.error
               message := "missing settings section"
               suggestedFix := "Add a 'settings' mapping with 'replicas' and 'timeout'" }],
        1 ≤ i.line :=
  ⟨rfl, c10_issue_lines "" _ rfl⟩

/-- Witness for C3: an input with a `settings` section but no `metadata`
section. -/
theorem c3_missing_metadata_witness :
    ∃ rest, lintBytes c3Input = Except.ok
        ({ line := metadataBaseLine (extractCfg c3Input), severity := Severity.error
           message := "missing metadata section"
           suggestedFix := "Add a 'metadata' mapping with 'name' and 'env' fields" } :: rest) ∧
      ∀ i ∈ rest, i.message ≠ "missing metadata section" ∧
        strStarts i.message "metadata." = false :=
  c3_missing_metadata c3Input (extractCfg c3Input) rfl rfl

/-! The "each feature entry should be a mapping" warning is dead code:
`parseConfig` never materializes an empty feature entry. -/

theorem validateMetadata_msgs (cfg : parsedConfig) :
    ∀ i ∈ validateMetadata cfg [],
      i.message = "missing metadata section" ∨
        i.message = "metadata.name is required" ∨
        i.message = "metadata.env is required" ∨
        strStarts i.message "metadata.env value " = true := by
  intro i hi
  by_cases hempty : cfg.metadata = []
  · simp [validateMetadata, hempty] at hi
    rw [hi]; left; rfl
  · rw [validateMetadata_split cfg hempty] at hi
    rcases List.mem_append.mp hi with h1 | h1
    · rw [validateMetadataName_msgs cfg i h1]; simp
    · rcases validateMetadataEnv_msgs cfg i h1 with h2 | h2
      · rw [h2]; simp
      · exact Or.inr (Or.inr (Or.inr h2))

theorem validateFeatures_no_mapping_msg (fs : List featureEntry)
    (hfs : ∀ e ∈ fs, e.fields ≠ []) :
    ∀ i ∈ fs.foldl (fun acc f => validateFeatureEntry f acc) [],
      i.message ≠ "each feature entry should be a mapping" := by
  induction fs with
  | nil => intro i hi; simp at hi
  | cons f rest ih =>
    intro i hi
    simp only [List.foldl_cons] at hi
    rw [validateFeatures_foldl_acc rest (validateFeatureEntry f [])] at hi
    rcases List.mem_append.mp hi with hf | hr
    · rw [validateFeatureEntry_split f (hfs f (List.mem_cons_self f rest))] at hf
      rcases List.mem_append.mp hf with h2 | h2
      · rw [featureNameIssue_msgs f i h2]; decide
      · rw [featureEnabledIssue_msgs f i h2]; decide
    · exact ih (fun e he => hfs e (List.mem_cons_of_mem f he)) i hr

/-- Counterexample for C4: no input ever produces the Warning "each
feature entry should be a mapping" — every append of a feature entry in
`parseConfig` is guarded by a non-empty fields check, also for an entry
explicitly closed by a `}` line, so the validator branch that would emit
this warning is unreachable.  This refutes the claim's "there exists an
input whose empty, explicitly-closed feature entry produces that
Warning". -/
theorem c4_counterexample :
    ¬ ∃ (data : String) (issues : List Issue) (i : Issue),
        lintBytes data = Except.ok issues ∧ i ∈ issues ∧
          i.message = "each feature entry should be a mapping" := by
  rintro ⟨data, issues, i, hok, hmem, hmsg⟩
  have hc := lintBytes_concat data
  rw [hok] at hc
  cases hp : parseConfig data with
  | error e => rw [hp] at hc; simp [Except.map] at hc
  | ok cfg =>
    rw [hp] at hc
    simp only [Except.map] at hc
    have hiss : issues =
        validateMetadata cfg [] ++ validateSettings cfg [] ++ validateFeatures cfg [] :=
      (Except.ok.injEq _ _).mp hc
    obtain ⟨hmd, hst, hml, hsl, hfeats⟩ := parseConfig_good data cfg hp
    rw [hiss] at hmem
    rcases List.mem_append.mp hmem with h1 | h1
    · rcases List.mem_append.mp h1 with h2 | h2
      · rcases validateMetadata_msgs cfg i h2 with h3 | h3 | h3 | h3
        · exact absurd (h3.symm.trans hmsg) (by decide)
        · exact absurd (h3.symm.trans hmsg) (by decide)
        · exact absurd (h3.symm.trans hmsg) (by decide)
        · rw [hmsg] at h3; exact absurd h3 (by decide)
      · rcases validateSettings_msgs cfg i h2 with h3 | h3 | h3 | h3 | h3 <;>
          exact absurd (h3.symm.trans hmsg) (by decide)
    · exact validateFeatures_no_mapping_msg cfg.features
        (fun e he => (hfeats e he).1) i h1 hmsg

/-- C4 amended: an empty pending feature entry is never appended to the
features sequence, with no exception — also when it is explicitly closed
empty by a `}` line nothing is appended, so the "each feature entry
should be a mapping" warning can never fire. -/
theorem c4_amended (data : String) (cfg : parsedConfig)
    (hp : parseConfig data = Except.ok cfg) :
    ∀ e ∈ cfg.features, e.fields ≠ [] :=
  fun e he => ((parseConfig_good data cfg hp).2.2.2.2 e he).1

/-- Witness for the amended C4 at a concrete two-field feature entry. -/
theorem c4_amended_witness :
    parseConfig c6WitnessInput = Except.ok (extractCfg c6WitnessInput) ∧
      ∀ e ∈ (extractCfg c6WitnessInput).features, e.fields ≠ [] :=
  ⟨rfl, c4_amended c6WitnessInput (extractCfg c6WitnessInput) rfl⟩

/-- Counterexample for C6: in `c6Input` the feature entry is opened by a
bare `-` marker on line 2 and its only field arrives on line 3; the
recorded entry line is 3 (the first field's line), not 2 (the marker
line): when the first key-value arrives, the pending entry's fields map
is still empty, so the loop re-anchors the entry at the key-value's
line. -/
theorem c6_counterexample :
    parseConfig c6Input = Except.ok (extractCfg c6Input) ∧
      (extractCfg c6Input).features =
        [{ fields := [("name", { value := "x", line := 3 })], line := 3 }] ∧
      ¬ (extractCfg c6Input).features.map featureEntry.line = [2] :=
  ⟨rfl, rfl, by decide⟩

/-- C6 amended: every feature entry appended to the features sequence has
its line equal to the line of its first-stored field (the last element
of the association list).  When the marker carries an inline key-value
this is the marker's line; for a bare marker whose fields arrive later it
is the first field's line, not the marker's. -/
theorem c6_entry_line (data : String) (cfg : parsedConfig)
    (hp : parseConfig data = Except.ok cfg) :
    ∀ e ∈ cfg.features, 1 ≤ e.line ∧
      ∃ p, e.fields.getLast? = some p ∧ p.2.line = e.line :=
  fun e he => ((parseConfig_good data cfg hp).2.2.2.2 e he).2

/-- Witness for the amended C6 at an entry whose marker line carries its
first field inline (entry line 2 equals the `name` field's line 2). -/
theorem c6_entry_line_witness :
    parseConfig c6WitnessInput = Except.ok (extractCfg c6WitnessInput) ∧
      ∀ e ∈ (extractCfg c6WitnessInput).features, 1 ≤ e.line ∧
        ∃ p, e.fields.getLast? = some p ∧ p.2.line = e.line :=
  ⟨rfl, c6_entry_line c6WitnessInput (extractCfg c6WitnessInput) rfl⟩

/-- Counterexample for C5: in `c5Input` each of the three section headers
occurs first on lines 1, 2, 3 and again on lines 4, 5, 6; the parsed
`metadataLine`, `settingsLine` and `featuresLine` are 4, 5, 6 — every
header switch overwrites the recorded line unconditionally, so the last
occurrence wins, not the first as the claim states. -/
theorem c5_counterexample :
    parseConfig c5Input = Except.ok (extractCfg c5Input) ∧
      (extractCfg c5Input).metadataLine = 4 ∧
      (extractCfg c5Input).settingsLine = 5 ∧
      (extractCfg c5Input).featuresLine = 6 ∧
      ¬ ((extractCfg c5Input).metadataLine = 1 ∧
          (extractCfg c5Input).settingsLine = 2 ∧
          (extractCfg c5Input).featuresLine = 3) :=
  ⟨rfl, rfl, rfl, rfl, by decide⟩

theorem stepKV_metadata_header (n : Nat) (st : scanState) :
    stepKV n ("metadata:".data) st =
      { st with sect := "metadata", cfg := { st.cfg with metadataLine := n } } := by
  unfold stepKV
  have hk : parseKeyValue ("metadata:".data) = ("metadata", "", true) := by decide
  rw [hk]
  dsimp only
  rw [if_neg (show ¬("metadata" : String) = "" by decide),
    if_pos (show ("metadata" : String) = "metadata" ∨ ("metadata" : String) = "\"metadata\"" from
      Or.inl rfl)]

theorem stepKV_settings_header (n : Nat) (st : scanState) :
    stepKV n ("settings:".data) st =
      { st with sect := "settings", cfg := { st.cfg with settingsLine := n } } := by
  unfold stepKV
  have hk : parseKeyValue ("settings:".data) = ("settings", "", true) := by decide
  rw [hk]
  dsimp only
  rw [if_neg (show ¬("settings" : String) = "" by decide),
    if_neg (show ¬(("settings" : String) = "metadata" ∨
      ("settings" : String) = "\"metadata\"") by decide),
    if_pos (show ("settings" : String) = "settings" ∨ ("settings" : String) = "\"settings\"" from
      Or.inl rfl)]

theorem stepKV_features_header (n : Nat) (st : scanState) :
    stepKV n ("features:".data) st =
      { st with sect := "features", cfg := { st.cfg with featuresLine := n } } := by
  unfold stepKV
  have hk : parseKeyValue ("features:".data) = ("features", "", true) := by decide
  rw [hk]
  dsimp only
  rw [if_neg (show ¬("features" : String) = "" by decide),
    if_neg (show ¬(("features" : String) = "metadata" ∨
      ("features" : String) = "\"metadata\"") by decide),
    if_neg (show ¬(("features" : String) = "settings" ∨
      ("features" : String) = "\"settings\"") by decide),
    if_pos (show ("features" : String) = "features" ∨ ("features" : String) = "\"features\"" from
      Or.inl rfl)]

/-- A line that survives trimming unchanged, is not blank, comment,
structural bracket, feature marker or a bare `}` is routed to the
key-value stage of the loop, whatever the current state. -/
theorem parseStep_plain_kv (n : Nat) (st : scanState) (raw : List Char)
    (h1 : trimSpaceL raw = raw)
    (h2 : ¬ (raw = [] ∨ startsWithL raw ['#'] = true))
    (h3 : trimSpaceL (trimSufL raw [',']) = raw)
    (h4 : ¬ (raw = ['{'] ∨ raw = ['}'] ∨ raw = ['['] ∨ raw = [']']))
    (h5 : startsWithL raw ['-'] = false)
    (h6 : startsWithL raw ['{'] = false)
    (h7 : ¬ raw = ['}']) :
    parseStep n raw st = stepKV n raw st := by
  unfold parseStep
  dsimp only
  rw [h1]
  rw [if_neg h2]
  rw [h3]
  rw [if_neg h4]
  by_cases hs : st.sect = "features"
  · rw [if_pos hs]
    have hm1 : stepMarker '-' n raw st = (some raw, st) := by
      unfold stepMarker
      rw [if_neg (by rw [h5]; exact Bool.false_ne_true)]
    rw [hm1]
    dsimp only
    have hm2 : stepMarker '{' n raw st = (some raw, st) := by
      unfold stepMarker
      rw [if_neg (by rw [h6]; exact Bool.false_ne_true)]
    rw [hm2]
    dsimp only
    rw [if_neg h7]
  · rw [if_neg hs]

/-- C5 amended: a `metadata` (respectively `settings`, `features`) header
line always records the current line number into the corresponding
`*Line` field and switches the section, whatever the prior state — so
when such a header occurs more than once, the field holds the line of
the *last* occurrence seen in the pass, not the first. -/
theorem c5_header_overwrites (n : Nat) (st : scanState) :
    ((parseStep n ("metadata:".data) st).cfg.metadataLine = n ∧
      (parseStep n ("metadata:".data) st).sect = "metadata") ∧
    ((parseStep n ("settings:".data) st).cfg.settingsLine = n ∧
      (parseStep n ("settings:".data) st).sect = "settings") ∧
    ((parseStep n ("features:".data) st).cfg.featuresLine = n ∧
      (parseStep n ("features:".data) st).sect = "features") := by
  have hm := parseStep_plain_kv n st ("metadata:".data) (by decide) (by decide) (by decide)
    (by decide) (by decide) (by decide) (by decide)
  have hs := parseStep_plain_kv n st ("settings:".data) (by decide) (by decide) (by decide)
    (by decide) (by decide) (by decide) (by decide)
  have hf := parseStep_plain_kv n st ("features:".data) (by decide) (by decide) (by decide)
    (by decide) (by decide) (by decide) (by decide)
  rw [hm, hs, hf, stepKV_metadata_header, stepKV_settings_header, stepKV_features_header]
  exact ⟨⟨rfl, rfl⟩, ⟨rfl, rfl⟩, ⟨rfl, rfl⟩⟩

/-! A fully valid configuration yields zero issues. -/

theorem containsStr_empty_false : containsStr allowedEnvironments "" = false := by decide

/-- C2: for every config whose parsed form has a non-empty
`metadata.name`, an allowed `metadata.env`, `settings.replicas` and
`settings.timeout` passing the positive-integer test, and every feature
entry carrying a non-empty `name` and a case-insensitive boolean
`enabled`, `LintBytes` returns zero issues. -/
theorem c2_valid_config (data : String) (cfg : parsedConfig)
    (hp : parseConfig data = Except.ok cfg)
    (hname : fieldNonEmpty cfg.metadata "name" = true)
    (henv : fieldEnvAllowed cfg.metadata "env" = true)
    (hrep : fieldPosInt cfg.settings "replicas" = true)
    (htim : fieldPosInt cfg.settings "timeout" = true)
    (hfeat : ∀ e ∈ cfg.features,
      fieldNonEmpty e.fields "name" = true ∧ fieldBoolOk e.fields "enabled" = true) :
    lintBytes data = Except.ok [] := by
  rw [lintBytes_concat data, hp]
  simp only [Except.map]
  have hm_ne : ¬ cfg.metadata = [] := by
    intro h0
    rw [h0] at hname
    simp [fieldNonEmpty, lookupField] at hname
  have hs_ne : ¬ cfg.settings = [] := by
    intro h0
    rw [h0] at hrep
    simp [fieldPosInt, lookupField] at hrep
  have hvm : validateMetadata cfg [] = [] := by
    rw [validateMetadata_split cfg hm_ne]
    have h1 : validateMetadataName cfg [] = [] := by
      unfold fieldNonEmpty at hname
      cases h : lookupField cfg.metadata "name" with
      | none => rw [h] at hname; simp at hname
      | some fi =>
        rw [h] at hname
        simp at hname
        simp [validateMetadataName, h, hname]
    have h2 : validateMetadataEnv cfg [] = [] := by
      unfold fieldEnvAllowed at henv
      cases h : lookupField cfg.metadata "env" with
      | none => rw [h] at henv; simp at henv
      | some fi =>
        rw [h] at henv
        simp at henv
        have hv : ¬ fi.value = "" := by
          intro h0
          rw [h0] at henv
          exact absurd henv (by decide)
        simp [validateMetadataEnv, h, hv, henv]
    rw [h1, h2]
    rfl
  have hvs : validateSettings cfg [] = [] := by
    rw [validateSettings_split cfg hs_ne]
    have h1 : validateSettingsReplicas cfg [] = [] := by
      unfold fieldPosInt at hrep
      cases h : lookupField cfg.settings "replicas" with
      | none => rw [h] at hrep; simp at hrep
      | some fi =>
        rw [h] at hrep
        simp at hrep
        simp [validateSettingsReplicas, h, hrep]
    have h2 : validateSettingsTimeout cfg [] = [] := by
      unfold fieldPosInt at htim
      cases h : lookupField cfg.settings "timeout" with
      | none => rw [h] at htim; simp at htim
      | some fi =>
        rw [h] at htim
        simp at htim
        simp [validateSettingsTimeout, h, htim]
    rw [h1, h2]
    rfl
  have hvf : validateFeatures cfg [] = [] := by
    unfold validateFeatures
    have hgen : ∀ fs : List featureEntry,
        (∀ e ∈ fs, fieldNonEmpty e.fields "name" = true ∧ fieldBoolOk e.fields "enabled" = true) →
          fs.foldl (fun acc f => validateFeatureEntry f acc) [] = [] := by
      intro fs
      induction fs with
      | nil => intro _; rfl
      | cons f rest ih =>
        intro hall
        have hf := hall f (List.mem_cons_self f rest)
        have hfne : ¬ f.fields = [] := by
          intro h0
          have := hf.1
          rw [h0] at this
          simp [fieldNonEmpty, lookupField] at this
        have hfe : validateFeatureEntry f [] = [] := by
          rw [validateFeatureEntry_split f hfne]
          have hn1 : featureNameIssue f [] = [] := by
            have hx := hf.1
            unfold fieldNonEmpty at hx
            cases h : lookupField f.fields "name" with
            | none => rw [h] at hx; simp at hx
            | some fi =>
              rw [h] at hx
              simp at hx
              simp [featureNameIssue, h, hx]
          have hn2 : featureEnabledIssue f [] = [] := by
            have hx := hf.2
            unfold fieldBoolOk at hx
            cases h : lookupField f.fields "enabled" with
            | none => rw [h] at hx; simp at hx
            | some fi =>
              rw [h] at hx
              simp at hx
              simp [featureEnabledIssue, h, hx]
          rw [hn1, hn2]
          rfl
        simp only [List.foldl_cons]
        rw [hfe]
        exact ih (fun e he => hall e (List.mem_cons_of_mem f he))
    exact hgen cfg.features hfeat
  rw [hvm, hvs, hvf]
  rfl

/-- Witness for C2: Scenario B (the repository's `TestLintConfigValid`
input) yields zero issues. -/
theorem c2_valid_config_witness : lintBytes scenarioB = Except.ok [] :=
  c2_valid_config scenarioB (extractCfg scenarioB) rfl (by decide) (by decide)
    (by decide) (by decide) (by decide)

/-! The scanner's token-size limit is the only error source. -/

theorem splitRawAux_no_newline (l : List Char) :
    ∀ acc : List Char, (∀ c ∈ l, c ≠ '\n') → splitRawAux l acc = [acc.reverse ++ l] := by
  induction l with
  | nil => intro acc _; simp [splitRawAux]
  | cons c rest ih =>
    intro acc h
    have hc : ¬ c = '\n' := h c (List.mem_cons_self c rest)
    simp only [splitRawAux, if_neg hc]
    rw [ih (c :: acc) (fun x hx => h x (List.mem_cons_of_mem c hx))]
    simp

theorem splitRaw_single (l : List Char) (hne : ¬ l = []) (h : ∀ c ∈ l, c ≠ '\n') :
    splitRaw l = [l] := by
  unfold splitRaw
  rw [if_neg hne, splitRawAux_no_newline l [] h]
  simp

theorem replicate_not_nil : ¬ (List.replicate 65536 'a') = [] := by
  intro h0
  have hlen := congrArg List.length h0
  rw [List.length_replicate] at hlen
  exact absurd hlen (by decide)

theorem c9Long_splitRaw : splitRaw (List.replicate 65536 'a') = [List.replicate 65536 'a'] :=
  splitRaw_single _ replicate_not_nil
    (fun c hc => by rw [List.eq_of_mem_replicate hc]; decide)

theorem c9Long_scannerOk : scannerOk c9LongInput.data = false := by
  rw [show c9LongInput.data = List.replicate 65536 'a' from rfl]
  unfold scannerOk
  rw [c9Long_splitRaw, List.all_cons, List.all_nil, List.length_replicate]
  decide

theorem c9Long_parseConfig :
    parseConfig c9LongInput = Except.error "bufio.Scanner: token too long" := by
  unfold parseConfig
  rw [if_neg (by rw [c9Long_scannerOk]; exact Bool.false_ne_true)]

theorem lintBytes_error (data : String) (e : String)
    (h : parseConfig data = Except.error e) : lintBytes data = Except.error e := by
  unfold lintBytes
  rw [h]

/-- Counterexample for C9: `LintBytes` is not error-free on in-memory
bytes — a single line of 65536 bytes exceeds what `bufio.Scanner` can
buffer while searching for its newline, the scan fails with
`ErrTooLong`, and `LintBytes` returns that error even though no I/O is
involved. -/
theorem c9_counterexample :
    lintBytes c9LongInput = Except.error "bufio.Scanner: token too long" :=
  lintBytes_error c9LongInput _ c9Long_parseConfig

/-- C9 amended: for every input whose scanner tokens (maximal
newline-free runs) all fit the 64 KiB buffer, `LintBytes` returns an
issue list and never an error; malformed content below that size never
aborts the scan. -/
theorem c9_no_error (data : String) (h : scannerOk data.data = true) :
    ∃ issues, lintBytes data = Except.ok issues := by
  have hp : parseConfig data =
      Except.ok (parseConfigLines ((splitRaw data.data).map dropCR)) := by
    unfold parseConfig
    rw [if_pos h]
  refine ⟨validateFeatures (parseConfigLines ((splitRaw data.data).map dropCR))
      (validateSettings (parseConfigLines ((splitRaw data.data).map dropCR))
        (validateMetadata (parseConfigLines ((splitRaw data.data).map dropCR)) [])), ?_⟩
  unfold lintBytes
  rw [hp]

/-- Witness for the amended C9 at a short input. -/
theorem c9_no_error_witness :
    scannerOk ("metadata:".data) = true ∧
      ∃ issues, lintBytes "metadata:" = Except.ok issues :=
  ⟨by decide, c9_no_error "metadata:" (by decide)⟩
